import Mathlib

/-!
# Verification of the flash-tools repository

A shallow embedding of `src/flash.py` and `src/flashy/flash.py` (the
`dat` and `model` classes, the profile writer, and the derived-quantity
functions), together with theorems settling the frozen claims about the
natural-language specification.

Strings are modelled as `List Char` (`Str`), files as `List Str` (one
entry per line, without the trailing newline).  Fallible Python code is
modelled in `Except PyErr`, where `PyErr` distinguishes the exception
classes the source can raise.  Numeric data flowing through `numpy` is
modelled at the token level (the whitespace-separated text fields), and
the derived-quantity functions (`calculate_shock`, `calculate_shell_mass`)
are modelled over `ℚ`.
-/

/-- Character-list model of a Python `str`. -/
abbrev Str := List Char

/-- Python `str.isspace` / whitespace for `str.split()` and `str.strip()`
(the characters our model ever has to classify). -/
def isWs (c : Char) : Bool :=
  c = ' ' || c = '\t' || c = '\n' || c = '\r'

/-- Python `str.strip()` (left part). -/
def pyStripLeft (s : Str) : Str := s.dropWhile isWs

/-- Python `str.strip()`: drop whitespace from both ends. -/
def pyStrip (s : Str) : Str :=
  ((s.dropWhile isWs).reverse.dropWhile isWs).reverse

/-- Worker for `splitWs`: `acc` holds the current token, reversed. -/
def splitWsAux : Str → Str → List Str
  | [], acc => if acc.isEmpty then [] else [acc.reverse]
  | c :: cs, acc =>
      if isWs c then
        if acc.isEmpty then splitWsAux cs [] else acc.reverse :: splitWsAux cs []
      else
        splitWsAux cs (c :: acc)

/-- Python `str.split()` with no argument: split on runs of whitespace,
discarding empty tokens. -/
def splitWs (s : Str) : List Str := splitWsAux s []

/-- `print(a, b, c, file=f)` joins the printed arguments with single
spaces; this is the corresponding join on token lists. -/
def intercalateSp : List Str → Str
  | [] => []
  | [t] => t
  | t :: ts => t ++ ' ' :: intercalateSp ts

/-- The Python exception classes raised (or leaked) by the source. -/
inductive PyErr : Type where
  | runtimeError
  | indexError
  | keyError
  | valueError
  | typeError
  | nameError
  deriving DecidableEq

/-- Equality of modelled Python results is decidable (used to evaluate
the model on concrete inputs). -/
instance {ε α : Type} [DecidableEq ε] [DecidableEq α] :
    DecidableEq (Except ε α) := fun a b =>
  match a, b with
  | .ok x, .ok y =>
      match decEq x y with
      | isTrue h => isTrue (by rw [h])
      | isFalse h => isFalse (by intro hc; cases hc; exact h rfl)
  | .error x, .error y =>
      match decEq x y with
      | isTrue h => isTrue (by rw [h])
      | isFalse h => isFalse (by intro hc; cases hc; exact h rfl)
  | .ok _, .error _ => isFalse (by intro hc; cases hc)
  | .error _, .ok _ => isFalse (by intro hc; cases hc)

/-- A Python value used as an index argument.  The source only inspects
the type tag (`type(index) is int` …), so values that are neither `int`,
`str` nor `tuple` are collapsed into `other` with a tag naming their
Python type. -/
inductive PyVal : Type where
  | int (n : Int)
  | str (s : Str)
  | tuple (elems : List PyVal)
  | other (tag : Str)

/-- `type(v) is int`. -/
def PyVal.isInt : PyVal → Bool
  | .int _ => true
  | _ => false

/-- `type(v) is str`. -/
def PyVal.isStr : PyVal → Bool
  | .str _ => true
  | _ => false

/-- `type(v) is tuple and len(v) == 2`. -/
def PyVal.isTuple2 : PyVal → Bool
  | .tuple [_, _] => true
  | _ => false

/-- Python list/tuple indexing `l[i]`: negative indices count from the
end, out-of-range raises `IndexError`. -/
def pyListGet {α : Type} (l : List α) (i : Int) : Except PyErr α :=
  let j : Int := if i < 0 then i + l.length else i
  if j < 0 then .error .indexError
  else
    match l.get? j.toNat with
    | some a => .ok a
    | none => .error .indexError

/-- Left-to-right effectful map for `Except` (a Python list
comprehension: evaluate each element in order, propagating the first
exception). -/
def exceptMap {α β : Type} (f : α → Except PyErr β) : List α → Except PyErr (List β)
  | [] => .ok []
  | x :: xs => do
      let y ← f x
      let ys ← exceptMap f xs
      pure (y :: ys)

/-- Left fold with early exception propagation (a Python `for` loop over
an accumulator). -/
def exceptFoldl {α β : Type} (f : β → α → Except PyErr β) (init : β) :
    List α → Except PyErr β
  | [] => .ok init
  | x :: xs => do
      let y ← f init x
      exceptFoldl f y xs

/-- Value of a decimal digit character, `none` on anything else. -/
def digitVal? (c : Char) : Option Nat :=
  if c = '0' then some 0 else if c = '1' then some 1
  else if c = '2' then some 2 else if c = '3' then some 3
  else if c = '4' then some 4 else if c = '5' then some 5
  else if c = '6' then some 6 else if c = '7' then some 7
  else if c = '8' then some 8 else if c = '9' then some 9
  else none

/-- The decimal digit character for `d < 10`. -/
def digitChar10 (d : Nat) : Char :=
  if d = 0 then '0' else if d = 1 then '1'
  else if d = 2 then '2' else if d = 3 then '3'
  else if d = 4 then '4' else if d = 5 then '5'
  else if d = 6 then '6' else if d = 7 then '7'
  else if d = 8 then '8' else if d = 9 then '9'
  else '*'

/-- Parse a non-empty all-digit token as a natural number. -/
def parseNatDigits (s : Str) : Option Nat :=
  if s ≠ [] ∧ s.all (fun c => (digitVal? c).isSome) then
    some (s.foldl (fun a c => 10 * a + (digitVal? c).getD 0) 0)
  else none

/-- Python `str(n)` for a natural number (decimal). -/
def natToStr (n : Nat) : Str :=
  if n = 0 then ['0'] else (Nat.digits 10 n).reverse.map digitChar10

/-- Python `int(token)`: optional sign, then decimal digits;
anything else raises `ValueError`. -/
def pyInt (t : Str) : Except PyErr Int :=
  let sm : Int × Str :=
    match t with
    | c :: rest => if c = '-' then (-1, rest) else if c = '+' then (1, rest) else (1, t)
    | [] => (1, t)
  match parseNatDigits sm.2 with
  | some n => .ok (sm.1 * n)
  | none => .error .valueError

/-- Is `pat` a prefix of `s`? -/
def strHasPrefix : Str → Str → Bool
  | [], _ => true
  | _ :: _, [] => false
  | p :: ps, c :: cs => p = c && strHasPrefix ps cs

/-- Python `pat in s` (substring containment). -/
def containsSub (pat : Str) : Str → Bool
  | [] => strHasPrefix pat []
  | c :: cs => strHasPrefix pat (c :: cs) || containsSub pat cs

/-- Python `float(token)` restricted to the decimal grammar
`[sign] digits [. digits] [(e|E) [sign] digits]` (with at least one digit
in the mantissa); the result is the exact rational value of the literal.
Anything else raises `ValueError`. -/
def pyFloatMantissa (m : Str) : Option ℚ :=
  let parts := (m.splitOn '.')
  match parts with
  | [ip] =>
    (parseNatDigits ip).map (fun n => (n : ℚ))
  | [ip, fp] =>
    if ip = [] ∧ fp = [] then none
    else
      let ipv : Option Nat := if ip = [] then some 0 else parseNatDigits ip
      let fpv : Option Nat := if fp = [] then some 0 else parseNatDigits fp
      match ipv, fpv with
      | some a, some b => some ((a : ℚ) + (b : ℚ) / (10 : ℚ) ^ fp.length)
      | _, _ => none
  | _ => none

/-- Optional sign in front of a mantissa. -/
def pyFloatSigned (m : Str) (f : Str → Option ℚ) : Option ℚ :=
  match m with
  | c :: rest =>
      if c = '-' then (f rest).map (fun q => -q)
      else if c = '+' then f rest
      else f m
  | [] => none

/-- Optional sign in front of an exponent. -/
def pyFloatExp (s : Str) : Option Int :=
  match s with
  | c :: rest =>
      if c = '-' then (parseNatDigits rest).map (fun n => -(n : Int))
      else if c = '+' then (parseNatDigits rest).map Int.ofNat
      else (parseNatDigits s).map Int.ofNat
  | [] => none

def pyFloat (t : Str) : Except PyErr ℚ :=
  let eSplit : Str × Option Str :=
    match t.splitOn 'e' with
    | [m, ex] => (m, some ex)
    | _ =>
      match t.splitOn 'E' with
      | [m, ex] => (m, some ex)
      | _ => (t, none)
  let mant := pyFloatSigned eSplit.1 pyFloatMantissa
  match eSplit.2 with
  | none =>
      match mant with
      | some q => .ok q
      | none => .error .valueError
  | some ex =>
      match mant, pyFloatExp ex with
      | some q, some e => .ok (q * (10 : ℚ) ^ e)
      | _, _ => .error .valueError

/-! ## The `dat` class (src/flash.py, lines 6-171) -/

/-- One run of a FLASH dat file, as produced by `np.genfromtxt` with
`names=...`: the field names and the parsed rows (rows kept at the
token level; `genfromtxt` checks that every row has one field per
name). -/
structure DatRun : Type where
  names : List Str
  rows : List (List Str)
  deriving DecidableEq

/-- The `dat` object: `__columns`, `__runs` and `__loaded`. -/
structure Dat : Type where
  columns : List Str
  runs : List DatRun
  loaded : Bool
  deriving DecidableEq

/-- `dat.check_loaded` (src/flash.py:28-30): raises `RuntimeError` when
no file has been loaded. -/
def Dat.check_loaded (d : Dat) : Except PyErr Unit :=
  if d.loaded then .ok () else .error .runtimeError

/-- Structured-array column access `run[name]` on a `genfromtxt` result:
`KeyError` when the field name does not exist.  (`np.atleast_1d` in the
source only undoes numpy's 0-d packaging of single-row runs; rows are
lists here, so the column is already a sequence.) -/
def findIdxOf? (name : Str) : List Str → Option Nat
  | [] => none
  | n :: ns => if n = name then some 0 else (findIdxOf? name ns).map (· + 1)

def colVals (run : DatRun) (name : Str) : Except PyErr (List Str) :=
  match findIdxOf? name run.names with
  | some k => .ok (run.rows.map (fun row => row.getD k []))
  | none => .error .keyError

/-- Column access through an integer position: `run[run.dtype.names[c]]`
(`IndexError` when `c` is out of range for the name tuple). -/
def colValsAt (run : DatRun) (c : Int) : Except PyErr (List Str) := do
  let name ← pyListGet run.names c
  colVals run name

/-- `np.concatenate` on a list of 1-d arrays: raises `ValueError` on an
empty argument list. -/
def npConcat (ls : List (List Str)) : Except PyErr (List Str) :=
  if ls.isEmpty then .error .valueError else .ok ls.flatten

/-- `dat.column_names` (src/flash.py:37-39).  The body calls the bare
name `check_loaded()`; the module defines no global `check_loaded` (only
the method `self.check_loaded`), so the call raises `NameError` before
anything else happens, loaded or not. -/
def Dat.column_names (_d : Dat) : Except PyErr (List Str) :=
  .error .nameError

/-- `dat.get_run` (src/flash.py:42-64): `self.check_loaded()` then
`self.__runs[run]`. -/
def Dat.get_run (d : Dat) (run : Int) : Except PyErr DatRun := do
  d.check_loaded
  pyListGet d.runs run

/-- `dat.get` (src/flash.py:67-108).  The result is `Option`-valued
because the `tuple` branch has no inner `else`: a two-element tuple
whose second component is neither `int` nor `str` falls through and the
function returns Python's `None`. -/
def Dat.get (d : Dat) (index : PyVal) : Except PyErr (Option (List Str)) := do
  d.check_loaded
  match index with
  | .int i => do
      -- np.concatenate([np.atleast_1d(run[self.__runs[0].dtype.names[index]]) for run in self.__runs])
      let r0 ← pyListGet d.runs 0
      let name ← pyListGet r0.names i
      let cols ← exceptMap (fun run => colVals run name) d.runs
      let all ← npConcat cols
      pure (some all)
  | .str s => do
      let cols ← exceptMap (fun run => colVals run s) d.runs
      let all ← npConcat cols
      pure (some all)
  | .tuple [run, column] =>
      match column with
      | .int c => do
          let r ← (match run with
                   | .int ri => pyListGet d.runs ri
                   | _ => .error .typeError)   -- list indices must be integers
          let vals ← colValsAt r c
          pure (some vals)
      | .str s => do
          let r ← (match run with
                   | .int ri => pyListGet d.runs ri
                   | _ => .error .typeError)
          let vals ← colVals r s
          pure (some vals)
      | _ => pure none                          -- fall-through: `return None`
  | _ => .error .indexError

/-! ### Header parsing (src/flash.py:121-133) -/

/-- `re.sub(r'^\d+\s*', '', s)`: when the string starts with a digit,
remove the leading run of digits and any whitespace right after it;
otherwise leave the string unchanged. -/
def stripLeadingDigits (s : Str) : Str :=
  match s with
  | c :: _ =>
      if c.isDigit then (s.dropWhile Char.isDigit).dropWhile isWs else s
  | [] => []

/-- Python slice `l[a:b]` for `0 ≤ a ≤ b` (clamping semantics). -/
def pySlice (l : Str) (a b : Nat) : Str := (l.take b).drop a

/-- The `while offset + width < len(l)` loop of `dat.read_file`
(src/flash.py:129-133), including the final `l[offset:]` field.  `fuel`
is an upper bound on the number of iterations; the initial call passes
`l.length`, which always suffices since `offset` grows by 26 per
iteration. -/
def headerFieldsLoop (l : Str) (offset : Nat) (fuel : Nat) : List Str :=
  match fuel with
  | 0 => [pyStrip (stripLeadingDigits (pyStrip (l.drop offset)))]
  | fuel + 1 =>
      if offset + 25 < l.length then
        pyStrip (stripLeadingDigits (pyStrip (pySlice l offset (offset + 25))))
          :: headerFieldsLoop l (offset + 26) fuel
      else
        [pyStrip (stripLeadingDigits (pyStrip (l.drop offset)))]

/-- Column-name derivation from the (stripped) first line of a dat file
(src/flash.py:124-133).  Note the first field: the slice is `l[1:25]`
(characters 1..24, width 24) and `re.sub` is applied to the *unstripped*
slice, with a single `.strip()` after it. -/
def columnsFromHeader (l : Str) : List Str :=
  pyStrip (stripLeadingDigits (pySlice l 1 25)) :: headerFieldsLoop l 26 l.length

/-- `np.genfromtxt(fname, names=..., dtype=None, encoding='ascii',
skip_header=skip[, max_rows=m])` at the token level: drop the first
`skip` lines, strip `#`-comments, discard blank lines, optionally keep
only the first `m` rows, and split each remaining line into fields.
Raises `ValueError` when the names are not distinct (duplicate dtype
field names) or some row does not have exactly one field per name.
The model assumes names made of ordinary identifier characters (numpy's
name validator leaves those unchanged). -/
def stripComment (l : Str) : Str := l.takeWhile (fun c => c ≠ '#')

/-- A line as `genfromtxt` sees it: `none` when the line is blank or
pure comment, otherwise its fields. -/
def parsedLine? (l : Str) : Option (List Str) :=
  let ts := splitWs (stripComment l)
  if ts.isEmpty then none else some ts

def gftBody (lines : List Str) (skip : Nat) (maxRows : Option Nat) :
    List (List Str) :=
  match maxRows with
  | some m => ((lines.drop skip).filterMap parsedLine?).take m
  | none => (lines.drop skip).filterMap parsedLine?

def genfromtxt (lines : List Str) (names : List Str) (skip : Nat)
    (maxRows : Option Nat) : Except PyErr DatRun :=
  if names.Nodup
      ∧ (gftBody lines skip maxRows).all (fun row => row.length = names.length) then
    .ok { names := names, rows := gftBody lines skip maxRows }
  else .error .valueError

/-- Is this line a header line for run segmentation
(src/flash.py:139)?  `line.strip().startswith('#')`. -/
def lineIsHeader (l : Str) : Bool :=
  match pyStrip l with
  | c :: _ => c = '#'
  | [] => false

/-- The run-segmentation loop of `dat.read_file` (src/flash.py:135-169):
`skip`/`next_run` bookkeeping over the lines, parsing a run at each
header that follows at least one data line, plus the final
header-to-EOF parse after the loop. -/
def segLoop (file : List Str) (names : List Str) :
    List Str → Nat → Nat → List DatRun → Except PyErr (List DatRun)
  | [], skip, _next_run, runs => do
      let r ← genfromtxt file names skip none
      pure (runs ++ [r])
  | l :: ls, skip, next_run, runs =>
      if ¬ lineIsHeader l then
        segLoop file names ls skip (next_run + 1) runs
      else if next_run = 0 then
        segLoop file names ls (skip + 1) 0 runs
      else do
        let r ← genfromtxt file names skip (some next_run)
        segLoop file names ls (skip + next_run + 1) 0 (runs ++ [r])

/-- `dat.read_file` (src/flash.py:111-171): derive the column names from
the stripped first line, then segment the file into runs. -/
def Dat.read_file (lines : List Str) : Except PyErr Dat := do
  let columns := columnsFromHeader (pyStrip (lines.headD []))
  let runs ← segLoop lines columns lines 0 0 []
  pure { columns := columns, runs := runs, loaded := true }

/-! ## The `model` class (src/flash.py, lines 174-280) -/

/-- The `model` object: `__comment`, `__var_names`, `__data` (kept as
parsed rows) and `__loaded`. -/
structure Model : Type where
  comment : Str
  var_names_data : List Str
  rows : List (List Str)
  loaded : Bool
  deriving DecidableEq

/-- `model.check_loaded` (src/flash.py:196-198). -/
def Model.check_loaded (m : Model) : Except PyErr Unit :=
  if m.loaded then .ok () else .error .runtimeError

/-- `model.var_names` (src/flash.py:201-207).  Like `dat.column_names`,
the body calls the bare name `check_loaded()`, which does not exist at
module level, so the call always raises `NameError`. -/
def Model.var_names (_m : Model) : Except PyErr (List Str) :=
  .error .nameError

/-- `model.get` (src/flash.py:214-242).  Its first statement is the bare
call `check_loaded()`, which raises `NameError` before the index is even
inspected — loaded or not. -/
def Model.get (_m : Model) (_index : PyVal) : Except PyErr (List Str) :=
  .error .nameError

/-- `model.read_file` (src/flash.py:245-280): optional `#` comment line,
a "number of variables" line whose last token is the count, `num_vars`
variable-name lines (first token each), then `np.genfromtxt` over the
remaining lines with names `['r'] + var_names`.

(`num_vars` is converted with `Int.toNat` for `range(num_vars)`; a
negative count does not occur in well-formed profiles.) -/
def modelHasComment (lines : List Str) : Bool :=
  match lines.headD [] with
  | '#' :: _ => true
  | _ => false

/-- `num_vars = int(line.split()[-1])`, the token part: `[-1]` on an
empty split raises `IndexError`. -/
def modelCountTok (rest : List Str) : Except PyErr Str :=
  match (splitWs (rest.headD [])).getLast? with
  | none => .error .indexError
  | some t => .ok t

/-- `[f.readline().split()[0] for i in range(num_vars)]`: `[0]` on an
empty split raises `IndexError`. -/
def modelNameToks (rest : List Str) (nvn : Nat) : Except PyErr (List Str) :=
  exceptMap (fun i =>
    match splitWs ((rest.drop 1).getD i []) with
    | [] => Except.error PyErr.indexError
    | t :: _ => Except.ok t) (List.range nvn)

def Model.read_file (lines : List Str) : Except PyErr Model := do
  let comment : Str := if modelHasComment lines then lines.headD [] else []
  let skipC : Nat := if modelHasComment lines then 1 else 0
  let rest : List Str := if modelHasComment lines then lines.drop 1 else lines
  let lastTok ← modelCountTok rest
  let nv ← pyInt lastTok
  let nameToks ← modelNameToks rest nv.toNat
  let var_names := ("r".toList) :: nameToks
  let run ← genfromtxt lines var_names (skipC + nv.toNat + 1) none
  pure { comment := comment, var_names_data := var_names,
         rows := run.rows, loaded := true }

/-- `write_flash_profile` (src/flash.py:283-309), as the list of lines
it prints.  `data` is the dict as an association list in insertion
order.  Out-of-range `data[var][i]` cannot occur in the claims settled
here (all value sequences have length `len(r)`), so element access is
modelled with `getD`. -/
def write_flash_profile (r : List Str) (data : List (Str × List Str))
    (comment : Str) : List Str :=
  ('#' :: ' ' :: comment)
    :: ("number of variables = ".toList ++ natToStr data.length)
    :: (data.map Prod.fst
        ++ (List.range r.length).map (fun i =>
             intercalateSp (r.getD i [] :: data.map (fun p => p.2.getD i []))))

/-! ## Derived-quantity functions

`src/flash.py` (lines 312-516) and `src/flashy/flash.py` (lines 7-211)
contain two copies of the registries and of `should_plot_log`,
`get_bounce_time`, `calculate_shell_mass` and `calculate_shock`.  The
copies are embedded separately in the namespaces `flash` and `flashy`.
-/

namespace flash

/-- `_VAR_LOGS` from src/flash.py:352-368. -/
def VAR_LOGS : List (Str × Bool) :=
  [ ("time".toList, false), ("r".toList, true), ("dens".toList, true),
    ("temp".toList, true), ("eint".toList, true), ("ener".toList, true),
    ("velx".toList, false), ("vely".toList, false), ("velz".toList, false),
    ("vrad".toList, false), ("entr".toList, false), ("ye".toList, false),
    ("sumy".toList, false), ("pres".toList, true),
    ("max_shock_radius".toList, true) ]

/-- `should_plot_log` from src/flash.py:425-444. -/
def should_plot_log (var : Str) : Bool :=
  match VAR_LOGS.lookup var with
  | some b => b
  | none => false

/-- `calculate_shell_mass` from src/flash.py:467-481.  `np.pi` is the
same imported constant in both files; it is passed explicitly since `ℚ`
has no π. -/
def calculate_shell_mass (pi r dr dens : ℚ) : ℚ :=
  (4 / 3) * pi * ((r + dr * (1 / 2)) ^ 3 - (r - dr * (1 / 2)) ^ 3) * dens

/-- `calculate_shock` from src/flash.py:483-516.  Its loop iterates over
`groupby(max_shock_rads)` and indexes `times[offset - 1]`, but neither
`max_shock_rads` nor `times` is defined anywhere (the parameters are
`time` and `shock_rad`), so evaluating the `for` statement raises
`NameError` on every call. -/
def calculate_shock (_time _shock_rad : List ℚ) :
    Except PyErr (List ℚ × List ℚ × List (Option ℚ)) :=
  .error .nameError

end flash

namespace flashy

/-- `_VAR_LOGS` from src/flashy/flash.py:47-63. -/
def VAR_LOGS : List (Str × Bool) :=
  [ ("time".toList, false), ("r".toList, true), ("dens".toList, true),
    ("temp".toList, true), ("eint".toList, true), ("ener".toList, true),
    ("velx".toList, false), ("vely".toList, false), ("velz".toList, false),
    ("vrad".toList, false), ("entr".toList, false), ("ye".toList, false),
    ("sumy".toList, false), ("pres".toList, true),
    ("max_shock_radius".toList, true) ]

/-- `should_plot_log` from src/flashy/flash.py:120-139. -/
def should_plot_log (var : Str) : Bool :=
  match VAR_LOGS.lookup var with
  | some b => b
  | none => false

/-- `calculate_shell_mass` from src/flashy/flash.py:162-176. -/
def calculate_shell_mass (pi r dr dens : ℚ) : ℚ :=
  (4 / 3) * pi * ((r + dr * (1 / 2)) ^ 3 - (r - dr * (1 / 2)) ^ 3) * dens

end flashy

/-- `get_bounce_time` — textually identical in src/flash.py:446-465 and
src/flashy/flash.py:141-160: scan the lines; on the first one containing
`'Bounce!'`, strip it and return `float(line.split()[1])`; `None` when
no line matches. -/
def get_bounce_time : List Str → Except PyErr (Option ℚ)
  | [] => .ok none
  | l :: ls =>
      if containsSub ("Bounce!".toList) l then
        match splitWs (pyStrip l) with
        | _ :: t :: _ => (pyFloat t).map some
        | _ => .error .indexError
      else get_bounce_time ls

/-! ### `calculate_shock` from src/flashy/flash.py:178-211 -/

/-- `itertools.groupby` reduced to what the loop uses: the list of
(key, group length) pairs of maximal runs of equal adjacent values. -/
def runLengthsAux : List ℚ → ℚ → Nat → List (ℚ × Nat)
  | [], k, n => [(k, n)]
  | x :: xs, k, n =>
      if x = k then runLengthsAux xs k (n + 1)
      else (k, n) :: runLengthsAux xs x 1

def runLengths : List ℚ → List (ℚ × Nat)
  | [] => []
  | x :: xs => runLengthsAux xs x 1

/-- The de-duplication loop of `calculate_shock`: starting from the
synthetic `[0]`/`[0]` lists, append `time[offset - 1]` and the group key
for every group of equal adjacent radii. -/
def smooth_points (time shock_radius : List ℚ) :
    Except PyErr (List ℚ × List ℚ) :=
  (exceptFoldl
    (fun (acc : Nat × List ℚ × List ℚ) (g : ℚ × Nat) => do
      let off := acc.1 + g.2
      let t ← pyListGet time ((off : Int) - 1)
      Except.ok (off, acc.2.1 ++ [t], acc.2.2 ++ [g.1]))
    (0, ([(0 : ℚ)], [(0 : ℚ)]))
    (runLengths shock_radius)).map
      (fun (acc : Nat × List ℚ × List ℚ) => acc.2)

/-- `np.linspace a b n` (with `endpoint=True`; exact in ℚ). -/
def linspace (a b : ℚ) (n : Nat) : List ℚ :=
  (List.range n).map (fun (i : Nat) => a + (i : ℚ) * ((b - a) / ((n : ℚ) - 1)))

/-- `np.interp x xp fp` for the increasing `xp` the source feeds it
(points given as `xp.zip fp`): clamp outside the range, interpolate
linearly inside. -/
def interpGo (x0 y0 : ℚ) : List (ℚ × ℚ) → ℚ → ℚ
  | [], _ => y0
  | (x1, y1) :: rest, x =>
      if x ≤ x1 then y0 + (y1 - y0) * (x - x0) / (x1 - x0)
      else interpGo x1 y1 rest x

def interp (x : ℚ) (pts : List (ℚ × ℚ)) : ℚ :=
  match pts with
  | [] => 0
  | (x0, y0) :: rest => if x ≤ x0 then y0 else interpGo x0 y0 rest x

/-- `np.gradient ys xs` (default `edge_order=1`): one-sided differences
at the two ends, the non-uniform-spacing central formula inside.  A zero
spacing makes the float computation non-finite (nan/inf); the model
returns `none` there. -/
def npGradient (ys xs : List ℚ) : List (Option ℚ) :=
  (List.range ys.length).map (fun i =>
    if i = 0 then
      let d := xs.getD 1 0 - xs.getD 0 0
      if d = 0 then none else some ((ys.getD 1 0 - ys.getD 0 0) / d)
    else if i = ys.length - 1 then
      let d := xs.getD i 0 - xs.getD (i - 1) 0
      if d = 0 then none else some ((ys.getD i 0 - ys.getD (i - 1) 0) / d)
    else
      let hs := xs.getD i 0 - xs.getD (i - 1) 0
      let hd := xs.getD (i + 1) 0 - xs.getD i 0
      let den := hs * hd * (hd + hs)
      if den = 0 then none
      else some ((hs ^ 2 * ys.getD (i + 1) 0 + (hd ^ 2 - hs ^ 2) * ys.getD i 0
                  - hd ^ 2 * ys.getD (i - 1) 0) / den))

namespace flashy

/-- `calculate_shock` from src/flashy/flash.py:178-211 (the copy whose
body matches its parameters). -/
def calculate_shock (time shock_radius : List ℚ) :
    Except PyErr (List ℚ × List ℚ × List (Option ℚ)) := do
  let sm ← smooth_points time shock_radius
  let t0 ← pyListGet time 0
  let tN ← pyListGet time (-1)
  let shock_times := linspace t0 tN 1000
  let shock_rad := shock_times.map (fun x => interp x (sm.1.zip sm.2))
  let shock_vel := npGradient shock_rad shock_times
  Except.ok (shock_times, shock_rad, shock_vel)

end flashy

/-! ## C2: formalization of the claimed header rule and the amended rule -/

/-- The header rule as claim C2 states it: the *first* field has width
25 beginning at character 1 (`l[1:26]`) and is processed exactly like
every other field (strip surrounding whitespace, then drop the leading
decimal digits); subsequent fields follow the `previous offset + width
+ 1` rule, the last field is the remainder of the line. -/
def columnsFromHeaderClaim (l : Str) : List Str :=
  pyStrip (stripLeadingDigits (pyStrip (pySlice l 1 26)))
    :: headerFieldsLoop l 26 l.length

/-- The header rule as the code actually implements it, written in
closed form: the first field is `l[1:25]` (width 24) with `re.sub`
applied *before* any whitespace stripping; then one width-25 field at
every offset `26 + 26*i` with `offset + 25 < len(l)`; then the remainder
of the line.  Middle and last fields are stripped, digit-stripped,
stripped. -/
def midField (l : Str) (o : Nat) : Str :=
  pyStrip (stripLeadingDigits (pyStrip (pySlice l o (o + 25))))

def lastField (l : Str) (o : Nat) : Str :=
  pyStrip (stripLeadingDigits (pyStrip (l.drop o)))

def columnsFromHeaderAmended (l : Str) : List Str :=
  let k := (l.length - 51 + 25) / 26
  pyStrip (stripLeadingDigits (pySlice l 1 25))
    :: (((List.range k).map (fun i => midField l (26 + 26 * i)))
        ++ [lastField l (26 + 26 * k)])

/-! ## General lemmas about the primitives -/

theorem exceptMap_ok {α β : Type} (f : α → Except PyErr β) (g : α → β)
    (l : List α) (h : ∀ x ∈ l, f x = .ok (g x)) :
    exceptMap f l = .ok (l.map g) := by
  induction l with
  | nil => rfl
  | cons x xs ih =>
      have hx : f x = .ok (g x) := h x (by simp)
      have hxs : exceptMap f xs = .ok (xs.map g) :=
        ih (fun y hy => h y (by simp [hy]))
      simp [exceptMap, hx, hxs, bind, Except.bind, pure, Except.pure]

theorem range_map_getD {α β : Type} (l : List α) (d : α) (f : α → β) :
    (List.range l.length).map (fun i => f (l.getD i d)) = l.map f := by
  induction l with
  | nil => rfl
  | cons x xs ih =>
      rw [List.length_cons, List.range_succ_eq_map, List.map_cons, List.map_map]
      refine congrArg₂ List.cons rfl ?_
      rw [show ((fun i => f ((x :: xs).getD i d)) ∘ Nat.succ)
            = (fun i => f (xs.getD i d)) from funext (fun i => rfl)]
      exact ih

theorem pyListGet_ofNat {α : Type} (l : List α) (i : Nat) (d : α)
    (h : i < l.length) :
    pyListGet l (i : Int) = .ok (l.getD i d) := by
  simp only [pyListGet]
  have h0 : ¬ ((i : Int) < 0) := by omega
  simp only [h0, if_false]
  have h1 : ((i : Int)).toNat = i := by omega
  rw [h1]
  have h2 := List.getElem?_eq_getElem (l := l) (n := i) h
  simp [List.get?_eq_getElem?, h2, List.getD_eq_getElem?_getD]

theorem splitWsAux_token (t : Str) (ht : ∀ c ∈ t, isWs c = false) :
    ∀ (rest acc : Str),
      splitWsAux (t ++ rest) acc = splitWsAux rest (t.reverse ++ acc) := by
  induction t with
  | nil => intro rest acc; simp
  | cons c cs ih =>
      intro rest acc
      have hc : isWs c = false := ht c (by simp)
      have hcs : ∀ x ∈ cs, isWs x = false := fun x hx => ht x (by simp [hx])
      simp [splitWsAux, hc, ih hcs rest (c :: acc)]

theorem splitWs_intercalate (ts : List Str) (hne : ts ≠ [])
    (h : ∀ t ∈ ts, t ≠ [] ∧ ∀ c ∈ t, isWs c = false) :
    splitWs (intercalateSp ts) = ts := by
  induction ts with
  | nil => exact absurd rfl hne
  | cons t ts ih =>
      have ht := h t (by simp)
      match ts, ih with
      | [], _ =>
          show splitWsAux (intercalateSp [t]) [] = [t]
          have : intercalateSp [t] = t ++ [] := by simp [intercalateSp]
          rw [this, splitWsAux_token t ht.2]
          have : t.reverse ++ [] = t.reverse := by simp
          rw [this]
          have hne2 : t.reverse.isEmpty = false := by
            cases t with
            | nil => exact absurd rfl ht.1
            | cons a b => simp [List.isEmpty_iff]
          simp [splitWsAux, hne2]
      | u :: us, ih =>
          have hrest : ∀ x ∈ u :: us, x ≠ [] ∧ ∀ c ∈ x, isWs c = false :=
            fun x hx => h x (by simp [hx])
          have ihr : splitWsAux (intercalateSp (u :: us)) [] = u :: us :=
            ih (by simp) hrest
          show splitWsAux (intercalateSp (t :: u :: us)) [] = t :: u :: us
          have : intercalateSp (t :: u :: us) = t ++ ' ' :: intercalateSp (u :: us) := rfl
          rw [this, splitWsAux_token t ht.2]
          have hsp : isWs ' ' = true := rfl
          have hne2 : t.reverse.isEmpty = false := by
            cases t with
            | nil => exact absurd rfl ht.1
            | cons a b => simp [List.isEmpty_iff]
          simp [splitWsAux, hsp, hne2, ihr]

theorem splitWs_single (t : Str) (hne : t ≠ [])
    (h : ∀ c ∈ t, isWs c = false) : splitWs t = [t] := by
  have := splitWs_intercalate [t] (by simp)
    (by intro x hx; simp at hx; subst hx; exact ⟨hne, h⟩)
  simpa [intercalateSp] using this

theorem digitVal?_digitChar10 (d : Nat) (h : d < 10) :
    digitVal? (digitChar10 d) = some d := by
  interval_cases d <;> rfl

theorem parseNatDigits_natToStr (n : Nat) :
    parseNatDigits (natToStr n) = some n := by
  by_cases h0 : n = 0
  · subst h0; rfl
  · have hne : Nat.digits 10 n ≠ [] := Nat.digits_ne_nil_iff_ne_zero.mpr h0
    have hlt : ∀ d ∈ Nat.digits 10 n, d < 10 :=
      fun d hd => Nat.digits_lt_base (by norm_num) hd
    simp only [natToStr, h0, if_false]
    have hall : ((Nat.digits 10 n).reverse.map digitChar10).all
        (fun c => (digitVal? c).isSome) = true := by
      rw [List.all_eq_true]
      intro c hc
      simp only [List.mem_map, List.mem_reverse] at hc
      obtain ⟨d, hd, rfl⟩ := hc
      rw [digitVal?_digitChar10 d (hlt d hd)]
      rfl
    have hne2 : (Nat.digits 10 n).reverse.map digitChar10 ≠ [] := by
      simp [hne]
    rw [parseNatDigits, if_pos ⟨hne2, hall⟩]
    refine congrArg some ?_
    -- Horner evaluation of the reversed digit string is `Nat.ofDigits`
    have key : ∀ L : List Nat, (∀ d ∈ L, d < 10) →
        ((L.reverse.map digitChar10).foldl
          (fun a c => 10 * a + (digitVal? c).getD 0) 0) = Nat.ofDigits 10 L := by
      intro L
      induction L with
      | nil => intro _; rfl
      | cons d L ih =>
          intro hL
          have hd : d < 10 := hL d (by simp)
          have hL2 : ∀ x ∈ L, x < 10 := fun x hx => hL x (by simp [hx])
          simp only [List.reverse_cons, List.map_append, List.foldl_append,
            List.map_cons, List.map_nil, List.foldl_cons, List.foldl_nil]
          rw [ih hL2, digitVal?_digitChar10 d hd]
          simp [Nat.ofDigits_cons]
          ring
    rw [key (Nat.digits 10 n) hlt, Nat.ofDigits_digits]

theorem pyInt_natToStr (n : Nat) : pyInt (natToStr n) = .ok (n : Int) := by
  have hne : natToStr n ≠ [] := by
    by_cases h0 : n = 0
    · subst h0; simp [natToStr]
    · simp [natToStr, h0, Nat.digits_ne_nil_iff_ne_zero.mpr h0]
  have hhead : ∀ c ∈ natToStr n, (digitVal? c).isSome := by
    intro c hc
    by_cases h0 : n = 0
    · subst h0; simp [natToStr] at hc; subst hc; rfl
    · simp only [natToStr, h0, if_false, List.mem_map, List.mem_reverse] at hc
      obtain ⟨d, hd, rfl⟩ := hc
      rw [digitVal?_digitChar10 d (Nat.digits_lt_base (by norm_num) hd)]
      rfl
  obtain ⟨c, cs, hcons⟩ : ∃ c cs, natToStr n = c :: cs := by
    cases h : natToStr n with
    | nil => exact absurd h hne
    | cons c cs => exact ⟨c, cs, rfl⟩
  have hc : (digitVal? c).isSome := hhead c (by rw [hcons]; simp)
  have hcm : c ≠ '-' := by intro h; rw [h] at hc; simp [digitVal?] at hc
  have hcp : c ≠ '+' := by intro h; rw [h] at hc; simp [digitVal?] at hc
  rw [pyInt.eq_def, hcons]
  simp only [hcm, hcp, if_false]
  rw [← hcons, parseNatDigits_natToStr]
  simp

theorem stripComment_eq_self (l : Str) (h : ∀ c ∈ l, c ≠ '#') :
    stripComment l = l :=
  List.takeWhile_eq_self_iff.mpr (by intro c hc; simpa using h c hc)

theorem mem_intercalateSp (ts : List Str) (c : Char) (h : c ∈ intercalateSp ts) :
    c = ' ' ∨ ∃ t ∈ ts, c ∈ t := by
  induction ts with
  | nil => simp [intercalateSp] at h
  | cons t ts ih =>
      match ts with
      | [] => exact Or.inr ⟨t, by simp, h⟩
      | u :: us =>
          rw [show intercalateSp (t :: u :: us) = t ++ ' ' :: intercalateSp (u :: us)
            from rfl] at h
          rcases List.mem_append.mp h with h1 | h2
          · exact Or.inr ⟨t, by simp, h1⟩
          · rcases List.mem_cons.mp h2 with h3 | h4
            · exact Or.inl h3
            · rcases ih h4 with h5 | ⟨v, hv, hc⟩
              · exact Or.inl h5
              · exact Or.inr ⟨v, by simp [hv], hc⟩

theorem parsedLine?_intercalate (ts : List Str) (hne : ts ≠ [])
    (h : ∀ t ∈ ts, t ≠ [] ∧ ∀ c ∈ t, isWs c = false ∧ c ≠ '#') :
    parsedLine? (intercalateSp ts) = some ts := by
  have hsc : stripComment (intercalateSp ts) = intercalateSp ts := by
    apply stripComment_eq_self
    intro c hc
    rcases mem_intercalateSp ts c hc with h1 | ⟨t, ht, hct⟩
    · subst h1; decide
    · exact ((h t ht).2 c hct).2
  have hsw : splitWs (intercalateSp ts) = ts :=
    splitWs_intercalate ts hne
      (fun t ht => ⟨(h t ht).1, fun c hc => ((h t ht).2 c hc).1⟩)
  have hne2 : ts.isEmpty = false := by
    cases ts with
    | nil => exact absurd rfl hne
    | cons a b => rfl
  rw [parsedLine?, hsc, hsw]
  simp [hne2]

/-! ## Lemmas about the header loop -/

theorem headerFieldsLoop_closed (l : Str) :
    ∀ (fuel offset : Nat), l.length ≤ offset + 26 * fuel + 25 →
      headerFieldsLoop l offset fuel =
        ((List.range ((l.length - (offset + 25) + 25) / 26)).map
            (fun i => midField l (offset + 26 * i)))
          ++ [lastField l (offset + 26 * ((l.length - (offset + 25) + 25) / 26))] := by
  intro fuel
  induction fuel with
  | zero =>
      intro offset h
      have hk : (l.length - (offset + 25) + 25) / 26 = 0 := by omega
      rw [hk]
      simp only [List.range_zero, List.map_nil, List.nil_append, Nat.mul_zero,
        Nat.add_zero]
      rfl
  | succ fuel ih =>
      intro offset h
      by_cases hc : offset + 25 < l.length
      · have hk : (l.length - (offset + 25) + 25) / 26
            = (l.length - (offset + 26 + 25) + 25) / 26 + 1 := by omega
        have hstep : headerFieldsLoop l offset (fuel + 1)
            = midField l offset :: headerFieldsLoop l (offset + 26) fuel := by
          rw [headerFieldsLoop, if_pos hc]; rfl
        rw [hstep, hk, ih (offset + 26) (by omega)]
        rw [List.range_succ_eq_map, List.map_cons, List.map_map]
        have h0 : midField l (offset + 26 * 0) = midField l offset := by
          norm_num
        have htl : ((fun i => midField l (offset + 26 * i)) ∘ Nat.succ)
            = (fun i => midField l (offset + 26 + 26 * i)) := by
          funext i
          simp only [Function.comp]
          exact congrArg (midField l) (by omega)
        have hlast : offset + 26 * ((l.length - (offset + 26 + 25) + 25) / 26 + 1)
            = offset + 26 + 26 * ((l.length - (offset + 26 + 25) + 25) / 26) := by
          omega
        rw [h0, htl, hlast]
        rfl
      · have hk : (l.length - (offset + 25) + 25) / 26 = 0 := by omega
        rw [hk]
        simp only [List.range_zero, List.map_nil, List.nil_append, Nat.mul_zero,
          Nat.add_zero]
        rw [headerFieldsLoop, if_neg hc]
        rfl

/-! ## Claim C2 -/

/-- C2 (counterexample): on the header line
`"# 1 mass                  2 time"` the code derives the column names
`["1 mass", "time"]` (the first slice is `l[1:25]` and `re.sub` sees the
leading whitespace, so the index digit survives), while the claimed rule
(width 25 starting at character 1, stripped like every other field)
yields `["mass", "time"]`.  The claim is false on this input. -/
theorem C2_header_rule_counterexample :
    columnsFromHeader (("# 1 mass                  2 time").toList)
      = [("1 mass").toList, ("time").toList]
    ∧ columnsFromHeaderClaim (("# 1 mass                  2 time").toList)
      = [("mass").toList, ("time").toList]
    ∧ columnsFromHeader (("# 1 mass                  2 time").toList)
      ≠ columnsFromHeaderClaim (("# 1 mass                  2 time").toList) :=
  ⟨by decide, by decide, by decide⟩

/-- C2 (amended): for every header line `l`, `dat.read_file` derives the
column names as follows: the first field is `l[1:25]` — width 24,
beginning at character 1 — with the leading-digit regex applied to the
raw slice *before* any whitespace stripping (so index digits preceded by
whitespace are not removed from the first name); subsequent fields have
width 25 and begin at offsets `26, 52, 78, …` (previous offset + width
+ 1) for as long as `offset + 25 < len(l)`; the last field is the
remainder of the line; middle and last fields are stripped of
surrounding whitespace, then of leading decimal digits (with trailing
whitespace), then stripped again. -/
theorem C2_header_rule_amended (l : Str) :
    columnsFromHeader l = columnsFromHeaderAmended l := by
  rw [columnsFromHeader, columnsFromHeaderAmended]
  refine congrArg₂ List.cons rfl ?_
  have h := headerFieldsLoop_closed l l.length 26 (by omega)
  rw [h]

/-! ## Claim C10 -/

/-- C10: `should_plot_log` together with its `_VAR_LOGS` registry and
`calculate_shell_mass` are extensionally equal across `src/flash.py` and
`src/flashy/flash.py`: the registries are the same mapping and the two
function pairs agree on every input. -/
theorem C10_duplicated_functions_agree :
    flash.VAR_LOGS = flashy.VAR_LOGS
    ∧ (∀ var : Str, flash.should_plot_log var = flashy.should_plot_log var)
    ∧ (∀ pi r dr dens : ℚ,
        flash.calculate_shell_mass pi r dr dens
          = flashy.calculate_shell_mass pi r dr dens) :=
  ⟨rfl, fun _ => rfl, fun _ _ _ _ => rfl⟩

/-! ## Claim C9 -/

/-- C9: `get_bounce_time` returns the second whitespace-separated token
of the first line containing `"Bounce!"`, parsed as a float, stopping at
that first match; `None` (absent) when no line matches.  In particular
the line `"step 123 Bounce! radius=1e6"` yields `123.0` and a log with
no `"Bounce!"` line yields the absent value. -/
theorem C9_get_bounce_time :
    (∀ lines : List Str,
      get_bounce_time lines =
        match lines.find? (fun l => containsSub (("Bounce!").toList) l) with
        | none => Except.ok none
        | some l =>
            match splitWs (pyStrip l) with
            | _ :: t :: _ => (pyFloat t).map some
            | _ => Except.error PyErr.indexError)
    ∧ get_bounce_time [("step 123 Bounce! radius=1e6").toList]
        = .ok (some (123 : ℚ))
    ∧ get_bounce_time [("no bounce marker here").toList] = .ok none := by
  refine ⟨?_, ?_, ?_⟩
  · intro lines
    induction lines with
    | nil => rfl
    | cons l ls ih =>
        by_cases hc : containsSub (("Bounce!").toList) l
        · rw [List.find?_cons_of_pos _ hc]
          rw [get_bounce_time, if_pos hc]
        · rw [List.find?_cons_of_neg _ (by simpa using hc)]
          rw [get_bounce_time, if_neg hc, ih]
  · decide
  · decide

/-! ## Claim C5 -/

/-- C5 (code behaviour at the failing inputs): before any load,
`dat.get` and `dat.get_run` do raise `RuntimeError`, but
`dat.column_names`, `model.get` and `model.var_names` call the
undefined bare name `check_loaded()` and therefore raise `NameError` —
both before and after a successful `read_file` — contradicting the
claim (and the methods' own docstrings, which promise `RuntimeError`
only for the unloaded state). -/
theorem C5_not_loaded_divergence (d : Dat) (m : Model)
    (hd : d.loaded = false) :
    Dat.get d (.int 0) = .error .runtimeError
    ∧ Dat.get_run d 0 = .error .runtimeError
    ∧ Dat.column_names d = .error .nameError
    ∧ Model.get m (.int 0) = .error .nameError
    ∧ Model.var_names m = .error .nameError := by
  refine ⟨?_, ?_, rfl, rfl, rfl⟩
  · simp [Dat.get, Dat.check_loaded, hd, bind, Except.bind]
  · simp [Dat.get_run, Dat.check_loaded, hd, bind, Except.bind]

theorem C5_not_loaded_divergence_witness :
    Dat.get { columns := [], runs := [], loaded := false } (.int 0)
        = .error .runtimeError
    ∧ Dat.get_run { columns := [], runs := [], loaded := false } 0
        = .error .runtimeError
    ∧ Dat.column_names { columns := [], runs := [], loaded := false }
        = .error .nameError
    ∧ Model.get { comment := [], var_names_data := [], rows := [], loaded := true }
        (.int 0) = .error .nameError
    ∧ Model.var_names { comment := [], var_names_data := [], rows := [], loaded := true }
        = .error .nameError :=
  C5_not_loaded_divergence
    { columns := [], runs := [], loaded := false }
    { comment := [], var_names_data := [], rows := [], loaded := true } rfl

/-! ## Claim C6 -/

/-- C6 (counterexample): on a loaded dat, indexing with the two-element
tuple `(0, <a float>)` — whose column component is neither an integer
nor a string — does *not* raise `IndexError`: the tuple branch of
`dat.get` has no inner `else`, so the function silently returns `None`. -/
theorem C6_invalid_index_counterexample :
    Dat.get { columns := [("a").toList],
              runs := [{ names := [("a").toList], rows := [[("1").toList]] }],
              loaded := true }
        (.tuple [.int 0, .other ("float").toList])
      = .ok none
    ∧ Dat.get { columns := [("a").toList],
                runs := [{ names := [("a").toList], rows := [[("1").toList]] }],
                loaded := true }
          (.tuple [.int 0, .other ("float").toList])
        ≠ .error .indexError := by
  refine ⟨rfl, ?_⟩
  intro h
  exact Except.noConfusion h

/-- C6 (amended): on a loaded dat, an index that is not an `int`, not a
`str` and not a two-element tuple raises `IndexError`; but a two-element
tuple whose column component is neither an integer nor a string returns
`None` without raising. -/
theorem C6_invalid_index_amended (d : Dat) (hl : d.loaded = true)
    (v : PyVal) (hvi : v.isInt = false) (hvs : v.isStr = false)
    (hvt : v.isTuple2 = false) (run c : PyVal)
    (hci : c.isInt = false) (hcs : c.isStr = false) :
    Dat.get d v = .error .indexError
    ∧ Dat.get d (.tuple [run, c]) = .ok none := by
  have hload : d.check_loaded = Except.ok () := by
    simp [Dat.check_loaded, hl]
  constructor
  · cases v with
    | int n => simp [PyVal.isInt] at hvi
    | str s => simp [PyVal.isStr] at hvs
    | tuple es =>
        match es with
        | [] => simp [Dat.get, hload, bind, Except.bind]
        | [x] => simp [Dat.get, hload, bind, Except.bind]
        | [x, y] => simp [PyVal.isTuple2] at hvt
        | x :: y :: z :: r => simp [Dat.get, hload, bind, Except.bind]
    | other t => simp [Dat.get, hload, bind, Except.bind]
  · cases c with
    | int n => simp [PyVal.isInt] at hci
    | str s => simp [PyVal.isStr] at hcs
    | tuple es =>
        simp [Dat.get, hload, bind, Except.bind, pure, Except.pure]
    | other t =>
        simp [Dat.get, hload, bind, Except.bind, pure, Except.pure]

theorem C6_invalid_index_amended_witness :
    Dat.get { columns := [("a").toList],
              runs := [{ names := [("a").toList], rows := [[("1").toList]] }],
              loaded := true }
        (.other ("list").toList) = .error .indexError
    ∧ Dat.get { columns := [("a").toList],
                runs := [{ names := [("a").toList], rows := [[("1").toList]] }],
                loaded := true }
          (.tuple [.int 0, .other ("NoneType").toList]) = .ok none :=
  C6_invalid_index_amended
    { columns := [("a").toList],
      runs := [{ names := [("a").toList], rows := [[("1").toList]] }],
      loaded := true }
    rfl (.other ("list").toList) rfl rfl rfl (.int 0)
    (.other ("NoneType").toList) rfl rfl

/-! ## Lemmas for the dat query contract (C3, C4) -/

theorem findIdxOf?_exists_of_mem {s : Str} {l : List Str} (h : s ∈ l) :
    ∃ k, findIdxOf? s l = some k := by
  induction l with
  | nil => simp at h
  | cons a l ih =>
      by_cases ha : a = s
      · exact ⟨0, by simp [findIdxOf?, ha]⟩
      · rcases List.mem_cons.mp h with h1 | h2
        · exact absurd h1.symm ha
        · obtain ⟨k, hk⟩ := ih h2
          exact ⟨k + 1, by simp [findIdxOf?, ha, hk]⟩

theorem getD_mem_of_lt {α : Type} (l : List α) (i : Nat) (d : α)
    (h : i < l.length) : l.getD i d ∈ l := by
  rw [List.getD_eq_getElem?_getD, List.getElem?_eq_getElem h]
  exact List.getElem_mem h

/-- On a run whose names are the dataset's columns, `run[s]` succeeds
and yields the rows' entries at the column's first index. -/
theorem colVals_ok (d : Dat) (hw : ∀ r ∈ d.runs, r.names = d.columns)
    (s : Str) (k : Nat) (hk : findIdxOf? s d.columns = some k)
    (r : DatRun) (hr : r ∈ d.runs) :
    colVals r s = .ok (r.rows.map (fun row => row.getD k [])) := by
  rw [colVals, hw r hr, hk]

theorem get_run_ok (d : Dat) (hl : d.loaded = true) (i : Nat)
    (h : i < d.runs.length) :
    Dat.get_run d (i : Int) = .ok (d.runs.getD i { names := [], rows := [] }) := by
  have hload : d.check_loaded = Except.ok () := by simp [Dat.check_loaded, hl]
  rw [Dat.get_run, hload]
  show pyListGet d.runs (i : Int) = _
  exact pyListGet_ofNat d.runs i _ h

/-- `dat.get(name)` is the run-order concatenation of the per-run
columns obtained through `get_run`. -/
theorem dat_get_str_concat (d : Dat) (hl : d.loaded = true)
    (hne : d.runs ≠ []) (hw : ∀ r ∈ d.runs, r.names = d.columns)
    (s : Str) (hs : s ∈ d.columns) :
    ∃ cols : List (List Str),
      exceptMap (fun (i : Nat) => do
          let r ← Dat.get_run d (i : Int)
          colVals r s) (List.range d.runs.length) = .ok cols
      ∧ Dat.get d (.str s) = .ok (some cols.flatten) := by
  obtain ⟨k, hk⟩ := findIdxOf?_exists_of_mem hs
  have hload : d.check_loaded = Except.ok () := by simp [Dat.check_loaded, hl]
  refine ⟨d.runs.map (fun r => r.rows.map (fun row => row.getD k [])), ?_, ?_⟩
  · have h1 : ∀ i ∈ List.range d.runs.length,
        (do let r ← Dat.get_run d (i : Int)
            colVals r s)
          = .ok ((fun r => r.rows.map (fun row => row.getD k []))
              ((d.runs.getD i { names := [], rows := [] }))) := by
      intro i hi
      rw [List.mem_range] at hi
      rw [get_run_ok d hl i hi]
      show colVals (d.runs.getD i { names := [], rows := [] }) s = _
      exact colVals_ok d hw s k hk _ (getD_mem_of_lt d.runs i _ hi)
    rw [exceptMap_ok _ _ _ h1]
    exact congrArg Except.ok (range_map_getD d.runs { names := [], rows := [] }
      (fun r => List.map (fun row => row.getD k []) r.rows))
  · have hmap : exceptMap (fun run => colVals run s) d.runs
        = .ok (d.runs.map (fun r => r.rows.map (fun row => row.getD k []))) :=
      exceptMap_ok _ _ _ (fun r hr => colVals_ok d hw s k hk r hr)
    have hconc : npConcat (d.runs.map (fun r => r.rows.map (fun row => row.getD k [])))
        = .ok (d.runs.map (fun r => r.rows.map (fun row => row.getD k []))).flatten := by
      rw [npConcat, if_neg]
      simp [List.isEmpty_iff, hne]
    simp only [Dat.get, hload, bind, Except.bind, hmap, hconc, pure, Except.pure]

/-- `dat.get(j)` (integer position) is the run-order concatenation of
the per-run columns obtained through `get_run` and the position `j`. -/
theorem dat_get_int_concat (d : Dat) (hl : d.loaded = true)
    (hne : d.runs ≠ []) (hw : ∀ r ∈ d.runs, r.names = d.columns)
    (j : Nat) (hj : j < d.columns.length) :
    ∃ cols : List (List Str),
      exceptMap (fun (i : Nat) => do
          let r ← Dat.get_run d (i : Int)
          colValsAt r (j : Int)) (List.range d.runs.length) = .ok cols
      ∧ Dat.get d (.int (j : Int)) = .ok (some cols.flatten) := by
  have hs : d.columns.getD j [] ∈ d.columns := getD_mem_of_lt d.columns j [] hj
  obtain ⟨k, hk⟩ := findIdxOf?_exists_of_mem hs
  have hload : d.check_loaded = Except.ok () := by simp [Dat.check_loaded, hl]
  have hlen0 : 0 < d.runs.length := List.length_pos.mpr hne
  have hnamesGet : ∀ r ∈ d.runs, pyListGet r.names (j : Int) = .ok (d.columns.getD j []) := by
    intro r hr
    rw [hw r hr]
    exact pyListGet_ofNat d.columns j [] hj
  refine ⟨d.runs.map (fun r => r.rows.map (fun row => row.getD k [])), ?_, ?_⟩
  · have h1 : ∀ i ∈ List.range d.runs.length,
        (do let r ← Dat.get_run d (i : Int)
            colValsAt r (j : Int))
          = .ok ((fun r => r.rows.map (fun row => row.getD k []))
              ((d.runs.getD i { names := [], rows := [] }))) := by
      intro i hi
      rw [List.mem_range] at hi
      rw [get_run_ok d hl i hi]
      have hmem := getD_mem_of_lt d.runs i { names := [], rows := [] } hi
      show colValsAt (d.runs.getD i { names := [], rows := [] }) (j : Int) = _
      rw [colValsAt, hnamesGet _ hmem]
      show colVals (d.runs.getD i { names := [], rows := [] }) (d.columns.getD j []) = _
      exact colVals_ok d hw _ k hk _ hmem
    rw [exceptMap_ok _ _ _ h1]
    exact congrArg Except.ok (range_map_getD d.runs { names := [], rows := [] }
      (fun r => List.map (fun row => row.getD k []) r.rows))
  · have hr0 : pyListGet d.runs (0 : Int)
        = .ok (d.runs.getD 0 { names := [], rows := [] }) := by
      simpa using pyListGet_ofNat d.runs 0 { names := [], rows := [] } hlen0
    have hmem0 := getD_mem_of_lt d.runs 0 { names := [], rows := [] } hlen0
    have hname0 := hnamesGet _ hmem0
    have hmap : exceptMap (fun run => colVals run (d.columns.getD j [])) d.runs
        = .ok (d.runs.map (fun r => r.rows.map (fun row => row.getD k []))) :=
      exceptMap_ok _ _ _ (fun r hr => colVals_ok d hw _ k hk r hr)
    have hconc : npConcat (d.runs.map (fun r => r.rows.map (fun row => row.getD k [])))
        = .ok (d.runs.map (fun r => r.rows.map (fun row => row.getD k []))).flatten := by
      rw [npConcat, if_neg]
      simp [List.isEmpty_iff, hne]
    simp only [Dat.get, hload, bind, Except.bind, hr0, hname0, hmap, hconc, pure,
      Except.pure]

/-! ## Claim C3 -/

/-- C3: for a loaded Diagnostic Dataset (runs all sharing the dataset's
column list, as `read_file` produces), `dat.get(column)` — column given
by name or by integer position — equals the ordered concatenation, in
run order over all runs, of that column's values in each run as
returned by `get_run`. -/
theorem C3_get_is_concat_of_runs (d : Dat) (hl : d.loaded = true)
    (hne : d.runs ≠ []) (hw : ∀ r ∈ d.runs, r.names = d.columns)
    (s : Str) (hs : s ∈ d.columns) (j : Nat) (hj : j < d.columns.length) :
    (∃ cols : List (List Str),
      exceptMap (fun (i : Nat) => do
          let r ← Dat.get_run d (i : Int)
          colVals r s) (List.range d.runs.length) = .ok cols
      ∧ Dat.get d (.str s) = .ok (some cols.flatten))
    ∧ (∃ cols : List (List Str),
      exceptMap (fun (i : Nat) => do
          let r ← Dat.get_run d (i : Int)
          colValsAt r (j : Int)) (List.range d.runs.length) = .ok cols
      ∧ Dat.get d (.int (j : Int)) = .ok (some cols.flatten)) :=
  ⟨dat_get_str_concat d hl hne hw s hs, dat_get_int_concat d hl hne hw j hj⟩

theorem C3_get_is_concat_of_runs_witness :
    (∃ cols : List (List Str),
      exceptMap (fun (i : Nat) => do
          let r ← Dat.get_run
              { columns := [("a").toList, ("b").toList],
                runs := [{ names := [("a").toList, ("b").toList],
                           rows := [[("1").toList, ("2").toList],
                                    [("3").toList, ("4").toList]] },
                         { names := [("a").toList, ("b").toList],
                           rows := [[("5").toList, ("6").toList]] }],
                loaded := true } (i : Int)
          colVals r (("a").toList))
        (List.range 2) = .ok cols
      ∧ Dat.get
          { columns := [("a").toList, ("b").toList],
            runs := [{ names := [("a").toList, ("b").toList],
                       rows := [[("1").toList, ("2").toList],
                                [("3").toList, ("4").toList]] },
                     { names := [("a").toList, ("b").toList],
                       rows := [[("5").toList, ("6").toList]] }],
            loaded := true } (.str (("a").toList)) = .ok (some cols.flatten))
    ∧ (∃ cols : List (List Str),
      exceptMap (fun (i : Nat) => do
          let r ← Dat.get_run
              { columns := [("a").toList, ("b").toList],
                runs := [{ names := [("a").toList, ("b").toList],
                           rows := [[("1").toList, ("2").toList],
                                    [("3").toList, ("4").toList]] },
                         { names := [("a").toList, ("b").toList],
                           rows := [[("5").toList, ("6").toList]] }],
                loaded := true } (i : Int)
          colValsAt r ((1 : Nat) : Int))
        (List.range 2) = .ok cols
      ∧ Dat.get
          { columns := [("a").toList, ("b").toList],
            runs := [{ names := [("a").toList, ("b").toList],
                       rows := [[("1").toList, ("2").toList],
                                [("3").toList, ("4").toList]] },
                     { names := [("a").toList, ("b").toList],
                       rows := [[("5").toList, ("6").toList]] }],
            loaded := true } (.int ((1 : Nat) : Int)) = .ok (some cols.flatten)) :=
  C3_get_is_concat_of_runs
    { columns := [("a").toList, ("b").toList],
      runs := [{ names := [("a").toList, ("b").toList],
                 rows := [[("1").toList, ("2").toList],
                          [("3").toList, ("4").toList]] },
               { names := [("a").toList, ("b").toList],
                 rows := [[("5").toList, ("6").toList]] }],
      loaded := true }
    rfl (by decide) (by decide) (("a").toList) (by decide) 1 (by decide)

/-! ## Claim C4 -/

/-- C4: for a loaded dat and a valid two-element `(run, column)` pair —
column given by integer position or by name — `dat.get((run, column))`
returns exactly the column of the run returned by `get_run(run)`
(including for runs with a single row, where `np.atleast_1d` in the
source merely unwraps numpy's 0-d packaging). -/
theorem C4_get_pair_matches_get_run (d : Dat) (hl : d.loaded = true)
    (i : Nat) (hi : i < d.runs.length) (ci : Nat) (s : Str)
    (hci : ci < (d.runs.getD i { names := [], rows := [] }).names.length)
    (hs : s ∈ (d.runs.getD i { names := [], rows := [] }).names) :
    (∃ vals : List Str,
      Dat.get_run d (i : Int) = .ok (d.runs.getD i { names := [], rows := [] })
      ∧ colValsAt (d.runs.getD i { names := [], rows := [] }) (ci : Int) = .ok vals
      ∧ Dat.get d (.tuple [.int (i : Int), .int (ci : Int)]) = .ok (some vals))
    ∧ (∃ vals : List Str,
      colVals (d.runs.getD i { names := [], rows := [] }) s = .ok vals
      ∧ Dat.get d (.tuple [.int (i : Int), .str s]) = .ok (some vals)) := by
  have hload : d.check_loaded = Except.ok () := by simp [Dat.check_loaded, hl]
  have hrun : pyListGet d.runs (i : Int)
      = .ok (d.runs.getD i { names := [], rows := [] }) :=
    pyListGet_ofNat d.runs i _ hi
  have hnm : pyListGet (d.runs.getD i { names := [], rows := [] }).names (ci : Int)
      = .ok ((d.runs.getD i { names := [], rows := [] }).names.getD ci []) :=
    pyListGet_ofNat _ ci [] hci
  have hmemn : (d.runs.getD i { names := [], rows := [] }).names.getD ci []
      ∈ (d.runs.getD i { names := [], rows := [] }).names :=
    getD_mem_of_lt _ ci [] hci
  obtain ⟨k1, hk1⟩ := findIdxOf?_exists_of_mem hmemn
  obtain ⟨k2, hk2⟩ := findIdxOf?_exists_of_mem hs
  have hcv1 : colVals (d.runs.getD i { names := [], rows := [] })
      ((d.runs.getD i { names := [], rows := [] }).names.getD ci [])
      = .ok ((d.runs.getD i { names := [], rows := [] }).rows.map
          (fun row => row.getD k1 [])) := by
    rw [colVals, hk1]
  have hcv2 : colVals (d.runs.getD i { names := [], rows := [] }) s
      = .ok ((d.runs.getD i { names := [], rows := [] }).rows.map
          (fun row => row.getD k2 [])) := by
    rw [colVals, hk2]
  have hcva : colValsAt (d.runs.getD i { names := [], rows := [] }) (ci : Int)
      = .ok ((d.runs.getD i { names := [], rows := [] }).rows.map
          (fun row => row.getD k1 [])) := by
    rw [colValsAt, hnm]
    show colVals _ _ = _
    exact hcv1
  constructor
  · refine ⟨_, ?_, hcva, ?_⟩
    · rw [Dat.get_run, hload]
      show pyListGet d.runs (i : Int) = _
      exact hrun
    · simp only [Dat.get, hload, bind, Except.bind, hrun, hcva, pure, Except.pure]
  · refine ⟨_, hcv2, ?_⟩
    simp only [Dat.get, hload, bind, Except.bind, hrun, hcv2, pure, Except.pure]

theorem C4_get_pair_matches_get_run_witness :
    (∃ vals : List Str,
      Dat.get_run
          { columns := [("a").toList, ("b").toList],
            runs := [{ names := [("a").toList, ("b").toList],
                       rows := [[("7").toList, ("8").toList]] }],
            loaded := true } ((0 : Nat) : Int)
        = .ok ({ names := [("a").toList, ("b").toList],
                 rows := [[("7").toList, ("8").toList]] })
      ∧ colValsAt { names := [("a").toList, ("b").toList],
                    rows := [[("7").toList, ("8").toList]] } ((1 : Nat) : Int)
          = .ok vals
      ∧ Dat.get
          { columns := [("a").toList, ("b").toList],
            runs := [{ names := [("a").toList, ("b").toList],
                       rows := [[("7").toList, ("8").toList]] }],
            loaded := true }
          (.tuple [.int ((0 : Nat) : Int), .int ((1 : Nat) : Int)])
        = .ok (some vals))
    ∧ (∃ vals : List Str,
      colVals { names := [("a").toList, ("b").toList],
                rows := [[("7").toList, ("8").toList]] } (("b").toList)
        = .ok vals
      ∧ Dat.get
          { columns := [("a").toList, ("b").toList],
            runs := [{ names := [("a").toList, ("b").toList],
                       rows := [[("7").toList, ("8").toList]] }],
            loaded := true }
          (.tuple [.int ((0 : Nat) : Int), .str (("b").toList)])
        = .ok (some vals)) :=
  C4_get_pair_matches_get_run
    { columns := [("a").toList, ("b").toList],
      runs := [{ names := [("a").toList, ("b").toList],
                 rows := [[("7").toList, ("8").toList]] }],
      loaded := true }
    rfl 0 (by decide) 1 (("b").toList) (by decide) (by decide)

/-! ## Lemmas for run segmentation (C1) -/

theorem mem_of_mem_pyStrip {c : Char} {l : Str} (h : c ∈ pyStrip l) : c ∈ l := by
  rw [pyStrip] at h
  rw [List.mem_reverse] at h
  have h2 := (List.dropWhile_sublist (l := (l.dropWhile isWs).reverse) isWs).mem h
  rw [List.mem_reverse] at h2
  exact (List.dropWhile_sublist isWs).mem h2

theorem lineIsHeader_false_of_no_hash (l : Str) (h : ∀ c ∈ l, c ≠ '#') :
    lineIsHeader l = false := by
  rw [lineIsHeader]
  cases hps : pyStrip l with
  | nil => rfl
  | cons c cs =>
      by_cases hc : c = '#'
      · subst hc
        have : ('#' : Char) ∈ pyStrip l := by rw [hps]; simp
        exact absurd rfl (h '#' (mem_of_mem_pyStrip this))
      · simp [hc]

theorem parsedLine?_data (l : Str) (hhash : ∀ c ∈ l, c ≠ '#')
    (hne : splitWs l ≠ []) : parsedLine? l = some (splitWs l) := by
  rw [parsedLine?, stripComment_eq_self l hhash]
  have : (splitWs l).isEmpty = false := by
    cases hsw : splitWs l with
    | nil => exact absurd hsw hne
    | cons a b => rfl
  simp [this]

theorem parsedLine?_of_header (l : Str) (hh : lineIsHeader l = true) :
    parsedLine? l = none := by
  induction l with
  | nil => simp [lineIsHeader, pyStrip] at hh
  | cons c cs ih =>
      by_cases hw : isWs c = true
      · -- a leading whitespace char changes neither the header test nor
        -- the tokenization
        have hc : c ≠ '#' := by
          intro hc; subst hc; exact absurd hw (by decide)
        have hstrip : pyStrip (c :: cs) = pyStrip cs := by
          rw [pyStrip, pyStrip, List.dropWhile_cons, if_pos hw]
        have h1 : lineIsHeader cs = true := by
          rw [lineIsHeader] at hh ⊢
          rw [hstrip] at hh
          exact hh
        have h2 := ih h1
        rw [parsedLine?] at h2 ⊢
        have hsc : stripComment (c :: cs) = c :: stripComment cs := by
          rw [stripComment, stripComment, List.takeWhile_cons]
          simp [hc]
        rw [hsc]
        have hsw2 : splitWs (c :: stripComment cs) = splitWs (stripComment cs) := by
          rw [splitWs, splitWs, splitWsAux]
          simp [hw, List.isEmpty_nil]
        rw [hsw2]
        exact h2
      · -- the first char is not whitespace, so it must be the comment mark
        have hd : (c :: cs).dropWhile isWs = c :: cs := by
          rw [List.dropWhile_cons, if_neg (by simp [hw])]
        obtain ⟨rest, hps⟩ : ∃ rest, pyStrip (c :: cs) = c :: rest := by
          rw [pyStrip, hd,
            show (c :: cs).reverse = cs.reverse ++ [c] from by simp,
            List.dropWhile_append]
          by_cases he : (cs.reverse.dropWhile isWs).isEmpty = true
          · rw [if_pos he]
            refine ⟨[], ?_⟩
            simp [List.dropWhile_cons, hw]
          · rw [if_neg he]
            exact ⟨(cs.reverse.dropWhile isWs).reverse, by simp⟩
        have hc : c = '#' := by
          rw [lineIsHeader, hps] at hh
          exact of_decide_eq_true hh
        subst hc
        rw [parsedLine?]
        have hsc : stripComment ('#' :: cs) = [] := by
          rw [stripComment, List.takeWhile_cons]
          simp
        rw [hsc]
        rfl

/-! ## Claim C1 -/

/-- C1: a diagnostic file consisting of a header line, 3 data lines, a
repeated header line and 2 data lines yields exactly 2 runs, of 3 and 2
rows respectively.  Data lines are lines free of the comment mark, with
at least one token and exactly one token per derived column name (and
the derived names are distinct, as numpy's dtype requires). -/
theorem C1_read_file_two_runs (h d1 d2 d3 h2 d4 d5 : Str)
    (hh : lineIsHeader h = true) (hh2 : lineIsHeader h2 = true)
    (hnodup : (columnsFromHeader (pyStrip h)).Nodup)
    (hd : ∀ l ∈ [d1, d2, d3, d4, d5],
      (∀ c ∈ l, c ≠ '#') ∧ splitWs l ≠ []
      ∧ (splitWs l).length = (columnsFromHeader (pyStrip h)).length) :
    ∃ D : Dat,
      Dat.read_file [h, d1, d2, d3, h2, d4, d5] = .ok D
      ∧ D.runs.length = 2
      ∧ D.runs.map (fun r => r.rows.length) = [3, 2] := by
  obtain ⟨hj1, hne1, hlen1⟩ := hd d1 (by simp)
  obtain ⟨hj2, hne2, hlen2⟩ := hd d2 (by simp)
  obtain ⟨hj3, hne3, hlen3⟩ := hd d3 (by simp)
  obtain ⟨hj4, hne4, hlen4⟩ := hd d4 (by simp)
  obtain ⟨hj5, hne5, hlen5⟩ := hd d5 (by simp)
  have hf1 : lineIsHeader d1 = false := lineIsHeader_false_of_no_hash d1 hj1
  have hf2 : lineIsHeader d2 = false := lineIsHeader_false_of_no_hash d2 hj2
  have hf3 : lineIsHeader d3 = false := lineIsHeader_false_of_no_hash d3 hj3
  have hf4 : lineIsHeader d4 = false := lineIsHeader_false_of_no_hash d4 hj4
  have hf5 : lineIsHeader d5 = false := lineIsHeader_false_of_no_hash d5 hj5
  have p1 : parsedLine? d1 = some (splitWs d1) := parsedLine?_data d1 hj1 hne1
  have p2 : parsedLine? d2 = some (splitWs d2) := parsedLine?_data d2 hj2 hne2
  have p3 : parsedLine? d3 = some (splitWs d3) := parsedLine?_data d3 hj3 hne3
  have p4 : parsedLine? d4 = some (splitWs d4) := parsedLine?_data d4 hj4 hne4
  have p5 : parsedLine? d5 = some (splitWs d5) := parsedLine?_data d5 hj5 hne5
  have ph2 : parsedLine? h2 = none := parsedLine?_of_header h2 hh2
  have hG1 : genfromtxt [h, d1, d2, d3, h2, d4, d5]
      (columnsFromHeader (pyStrip h)) 1 (some 3)
      = .ok { names := columnsFromHeader (pyStrip h),
              rows := [splitWs d1, splitWs d2, splitWs d3] } := by
    have hbody : gftBody [h, d1, d2, d3, h2, d4, d5] 1 (some 3)
        = [splitWs d1, splitWs d2, splitWs d3] := by
      simp [gftBody, p1, p2, p3, p4, p5, ph2]
    rw [genfromtxt, hbody, if_pos ⟨hnodup, by simp [hlen1, hlen2, hlen3]⟩]
  have hG2 : genfromtxt [h, d1, d2, d3, h2, d4, d5]
      (columnsFromHeader (pyStrip h)) 5 none
      = .ok { names := columnsFromHeader (pyStrip h),
              rows := [splitWs d4, splitWs d5] } := by
    have hbody : gftBody [h, d1, d2, d3, h2, d4, d5] 5 none
        = [splitWs d4, splitWs d5] := by
      simp [gftBody, p4, p5]
    rw [genfromtxt, hbody, if_pos ⟨hnodup, by simp [hlen4, hlen5]⟩]
  have hseg : segLoop [h, d1, d2, d3, h2, d4, d5] (columnsFromHeader (pyStrip h))
      [h, d1, d2, d3, h2, d4, d5] 0 0 []
      = .ok [{ names := columnsFromHeader (pyStrip h),
               rows := [splitWs d1, splitWs d2, splitWs d3] },
             { names := columnsFromHeader (pyStrip h),
               rows := [splitWs d4, splitWs d5] }] := by
    rw [segLoop, if_neg (by simp [hh]), if_pos rfl]
    show segLoop _ _ [d1, d2, d3, h2, d4, d5] 1 0 [] = _
    rw [segLoop, if_pos (by simp [hf1])]
    show segLoop _ _ [d2, d3, h2, d4, d5] 1 1 [] = _
    rw [segLoop, if_pos (by simp [hf2])]
    show segLoop _ _ [d3, h2, d4, d5] 1 2 [] = _
    rw [segLoop, if_pos (by simp [hf3])]
    show segLoop _ _ [h2, d4, d5] 1 3 [] = _
    rw [segLoop, if_neg (by simp [hh2]), if_neg (by omega), hG1]
    show segLoop _ _ [d4, d5] 5 0
      [{ names := columnsFromHeader (pyStrip h),
         rows := [splitWs d1, splitWs d2, splitWs d3] }] = _
    rw [segLoop, if_pos (by simp [hf4])]
    show segLoop _ _ [d5] 5 1 _ = _
    rw [segLoop, if_pos (by simp [hf5])]
    show segLoop _ _ [] 5 2 _ = _
    rw [segLoop, hG2]
    rfl
  refine ⟨{ columns := columnsFromHeader (pyStrip h),
            runs := [{ names := columnsFromHeader (pyStrip h),
                       rows := [splitWs d1, splitWs d2, splitWs d3] },
                     { names := columnsFromHeader (pyStrip h),
                       rows := [splitWs d4, splitWs d5] }],
            loaded := true }, ?_, rfl, rfl⟩
  simp only [Dat.read_file, List.headD_cons, hseg, bind, Except.bind, pure, Except.pure]

theorem C1_read_file_two_runs_witness :
    ∃ D : Dat,
      Dat.read_file
          [("#a                        b").toList,
           ("1 2").toList, ("3 4").toList, ("5 6").toList,
           ("#a                        b").toList,
           ("7 8").toList, ("9 10").toList] = .ok D
      ∧ D.runs.length = 2
      ∧ D.runs.map (fun r => r.rows.length) = [3, 2] :=
  C1_read_file_two_runs ("#a                        b").toList
    (("1 2").toList) (("3 4").toList) (("5 6").toList)
    ("#a                        b").toList
    (("7 8").toList) (("9 10").toList)
    (by decide) (by decide) (by decide) (by decide)

/-! ## Claim C8 -/

theorem getD_map_range {β : Type} (n i : Nat) (h : i < n) (f : Nat → β) (d : β) :
    ((List.range n).map f).getD i d = f i := by
  rw [List.getD_eq_getElem?_getD, List.getElem?_map, List.getElem?_range h]
  rfl

/-- C8: on `time=[0,1,2,3,4]`, `shock_radius=[5,5,7,7,7]`:
`src/flash.py`'s copy of `calculate_shock` raises `NameError` (its body
reads the undefined names `max_shock_rads` and `times`), while the
`src/flashy/flash.py` copy behaves as claimed: the de-duplication keeps
the time of the last occurrence of each run of equal radii plus the
synthetic leading point, giving smoothed points `(0,0),(1,5),(4,7)`; the
resampled output is the 1000-point `linspace` spanning `[0,4]` with the
linearly interpolated radii; and the velocity at the first point is
finite — it in fact equals 5. -/
theorem C8_calculate_shock_behaviour :
    flash.calculate_shock [(0 : ℚ), 1, 2, 3, 4] [5, 5, 7, 7, 7] = .error .nameError
    ∧ smooth_points [(0 : ℚ), 1, 2, 3, 4] [5, 5, 7, 7, 7] = .ok ([0, 1, 4], [0, 5, 7])
    ∧ (∃ sts srs vel,
        flashy.calculate_shock [(0 : ℚ), 1, 2, 3, 4] [5, 5, 7, 7, 7]
          = .ok (sts, srs, vel)
        ∧ sts = linspace 0 4 1000
        ∧ sts.length = 1000
        ∧ sts.head? = some 0
        ∧ sts.getLast? = some 4
        ∧ srs = sts.map (fun x => interp x [(0, 0), (1, 5), (4, 7)])
        ∧ vel.head? = some (some 5)) := by
  have hsm : smooth_points [(0 : ℚ), 1, 2, 3, 4] [5, 5, 7, 7, 7]
      = .ok ([0, 1, 4], [0, 5, 7]) := by decide
  have ht0 : pyListGet [(0 : ℚ), 1, 2, 3, 4] 0 = .ok 0 := by decide
  have htN : pyListGet [(0 : ℚ), 1, 2, 3, 4] (-1) = .ok 4 := by decide
  refine ⟨rfl, hsm,
    linspace 0 4 1000,
    (linspace 0 4 1000).map
      (fun x => interp x [((0 : ℚ), (0 : ℚ)), (1, 5), (4, 7)]),
    npGradient
      ((linspace 0 4 1000).map
        (fun x => interp x [((0 : ℚ), (0 : ℚ)), (1, 5), (4, 7)]))
      (linspace 0 4 1000),
    ?_, rfl, ?_, ?_, ?_, rfl, ?_⟩
  · simp only [flashy.calculate_shock, hsm, ht0, htN, bind, Except.bind, pure,
      Except.pure]
    rfl
  · simp [linspace]
  · rw [linspace, show (1000 : Nat) = 999 + 1 from rfl, List.range_succ_eq_map,
      List.map_cons, List.head?_cons]
    norm_num
  · rw [linspace, show (1000 : Nat) = 999 + 1 from rfl, List.range_succ,
      List.map_append, List.map_cons, List.map_nil, List.getLast?_concat]
    norm_num
  · have hxlen : ((linspace (0 : ℚ) 4 1000).map
        (fun x => interp x [((0 : ℚ), (0 : ℚ)), (1, 5), (4, 7)])).length = 1000 := by
      simp [linspace]
    rw [npGradient, hxlen]
    rw [show (1000 : Nat) = 999 + 1 from rfl, List.range_succ_eq_map,
      List.map_cons, List.head?_cons]
    refine congrArg some ?_
    rw [if_pos rfl]
    have hx0 : (linspace (0 : ℚ) 4 1000).getD 0 0
        = 0 + ((0 : Nat) : ℚ) * ((4 - 0) / ((1000 : ℚ) - 1)) := by
      rw [linspace]
      exact getD_map_range 1000 0 (by norm_num) _ 0
    have hx1 : (linspace (0 : ℚ) 4 1000).getD 1 0
        = 0 + ((1 : Nat) : ℚ) * ((4 - 0) / ((1000 : ℚ) - 1)) := by
      rw [linspace]
      exact getD_map_range 1000 1 (by norm_num) _ 0
    have hy0 : ((linspace (0 : ℚ) 4 1000).map
          (fun x => interp x [((0 : ℚ), (0 : ℚ)), (1, 5), (4, 7)])).getD 0 0
        = interp (0 + ((0 : Nat) : ℚ) * ((4 - 0) / ((1000 : ℚ) - 1)))
            [((0 : ℚ), (0 : ℚ)), (1, 5), (4, 7)] := by
      rw [linspace, List.map_map]
      exact getD_map_range 1000 0 (by norm_num) _ 0
    have hy1 : ((linspace (0 : ℚ) 4 1000).map
          (fun x => interp x [((0 : ℚ), (0 : ℚ)), (1, 5), (4, 7)])).getD 1 0
        = interp (0 + ((1 : Nat) : ℚ) * ((4 - 0) / ((1000 : ℚ) - 1)))
            [((0 : ℚ), (0 : ℚ)), (1, 5), (4, 7)] := by
      rw [linspace, List.map_map]
      exact getD_map_range 1000 1 (by norm_num) _ 0
    have hi0 : interp (0 + ((0 : Nat) : ℚ) * ((4 - 0) / ((1000 : ℚ) - 1)))
        [((0 : ℚ), (0 : ℚ)), (1, 5), (4, 7)] = 0 := by
      norm_num [interp]
    have hi1 : interp (0 + ((1 : Nat) : ℚ) * ((4 - 0) / ((1000 : ℚ) - 1)))
        [((0 : ℚ), (0 : ℚ)), (1, 5), (4, 7)] = 20 / 999 := by
      norm_num [interp, interpGo]
    rw [hx0, hx1, hy0, hy1, hi0, hi1]
    norm_num

/-! ## Lemmas for the profile round-trip (C7) -/

theorem getD_append_left {α : Type} (l₁ l₂ : List α) (i : Nat) (d : α)
    (h : i < l₁.length) : (l₁ ++ l₂).getD i d = l₁.getD i d := by
  simp [List.getD_eq_getElem?_getD, List.getElem?_append, h]

theorem getD_map_lt {α β : Type} (l : List α) (f : α → β) (i : Nat) (d : β)
    (dl : α) (h : i < l.length) : (l.map f).getD i d = f (l.getD i dl) := by
  rw [List.getD_eq_getElem?_getD, List.getElem?_map,
    List.getElem?_eq_getElem h, List.getD_eq_getElem?_getD,
    List.getElem?_eq_getElem h]
  rfl

theorem filterMap_all_some {α β : Type} (h : α → Option β) (g : α → β)
    (l : List α) (hl : ∀ x ∈ l, h x = some (g x)) :
    l.filterMap h = l.map g := by
  induction l with
  | nil => rfl
  | cons x xs ih =>
      rw [List.filterMap_cons, hl x (by simp), List.map_cons,
        ih (fun y hy => hl y (by simp [hy]))]

theorem natToStr_clean (n : Nat) :
    natToStr n ≠ [] ∧ ∀ c ∈ natToStr n, isWs c = false ∧ c ≠ '#' := by
  constructor
  · by_cases h0 : n = 0
    · subst h0; simp [natToStr]
    · simp [natToStr, h0, Nat.digits_ne_nil_iff_ne_zero.mpr h0]
  · intro c hc
    by_cases h0 : n = 0
    · subst h0
      simp [natToStr] at hc
      subst hc
      exact ⟨rfl, by decide⟩
    · simp only [natToStr, h0, if_false, List.mem_map, List.mem_reverse] at hc
      obtain ⟨d, hd, rfl⟩ := hc
      have hlt := Nat.digits_lt_base (by norm_num) hd
      interval_cases d <;> exact ⟨rfl, by decide⟩

/-! ## Claim C7 -/

/-- C7: writing a profile with `write_flash_profile` and reading the
file back with `model.read_file` yields a Profile Dataset whose column
list is `["r"]` followed by the mapping's keys in insertion order and
whose content is exactly the written `r` and `data` (the model works at
the token level, so "equal to floating-point text formatting precision"
is token equality).  Hypotheses: at least one zone; tokens are nonempty,
whitespace-free and `#`-free; variable names are nonempty,
whitespace-free, distinct and distinct from `"r"`; every value sequence
has one entry per zone; the comment contains no newline (the line-based
model would otherwise misrepresent the file). -/
theorem C7_profile_roundtrip (r : List Str) (data : List (Str × List Str))
    (comment : Str) (_hr : r ≠ [])
    (_hcom : ('\n') ∉ comment)
    (hrtok : ∀ t ∈ r, t ≠ [] ∧ ∀ c ∈ t, isWs c = false ∧ c ≠ '#')
    (hvals : ∀ p ∈ data, p.2.length = r.length
      ∧ ∀ t ∈ p.2, t ≠ [] ∧ ∀ c ∈ t, isWs c = false ∧ c ≠ '#')
    (hnames : ∀ p ∈ data, p.1 ≠ [] ∧ ∀ c ∈ p.1, isWs c = false)
    (hnodup : ((("r").toList) :: data.map Prod.fst).Nodup) :
    ∃ m : Model,
      Model.read_file (write_flash_profile r data comment) = .ok m
      ∧ m.var_names_data = (("r").toList) :: data.map Prod.fst
      ∧ m.rows.map (fun row => row.getD 0 []) = r
      ∧ ∀ j, j < data.length →
          m.rows.map (fun row => row.getD (j + 1) []) = (data.getD j ([], [])).2 := by
  obtain ⟨hnne, hnclean⟩ := natToStr_clean data.length
  have hsplitCount :
      splitWs ((("number of variables = ").toList) ++ natToStr data.length)
      = [("number").toList, ("of").toList, ("variables").toList, ("=").toList,
         natToStr data.length] := by
    rw [show (("number of variables = ").toList) ++ natToStr data.length
        = intercalateSp [("number").toList, ("of").toList, ("variables").toList,
            ("=").toList, natToStr data.length] from rfl]
    apply splitWs_intercalate _ (by simp)
    intro t ht
    simp only [List.mem_cons, List.not_mem_nil, or_false] at ht
    rcases ht with rfl | rfl | rfl | rfl | rfl
    · exact (by decide)
    · exact (by decide)
    · exact (by decide)
    · exact (by decide)
    · exact ⟨hnne, fun c hc => (hnclean c hc).1⟩
  have hct : modelCountTok (((("number of variables = ").toList)
          ++ natToStr data.length)
        :: (data.map Prod.fst
            ++ (List.range r.length).map (fun i =>
                 intercalateSp (r.getD i [] :: data.map (fun p => p.2.getD i [])))))
      = .ok (natToStr data.length) := by
    rw [modelCountTok]
    rw [List.headD_cons, hsplitCount]
    rfl
  have hnt : modelNameToks (((("number of variables = ").toList)
          ++ natToStr data.length)
        :: (data.map Prod.fst
            ++ (List.range r.length).map (fun i =>
                 intercalateSp (r.getD i [] :: data.map (fun p => p.2.getD i [])))))
        data.length
      = .ok (data.map Prod.fst) := by
    rw [modelNameToks]
    have h1 : ∀ i ∈ List.range data.length,
        (match splitWs ((((((("number of variables = ").toList)
                ++ natToStr data.length)
              :: (data.map Prod.fst
                  ++ (List.range r.length).map (fun i =>
                       intercalateSp (r.getD i []
                         :: data.map (fun p => p.2.getD i []))))).drop 1)).getD i []) with
         | [] => Except.error PyErr.indexError
         | t :: _ => Except.ok t)
          = Except.ok ((data.getD i ([], [])).1) := by
      intro i hi
      rw [List.mem_range] at hi
      rw [show ((((("number of variables = ").toList) ++ natToStr data.length)
            :: (data.map Prod.fst
                ++ (List.range r.length).map (fun i =>
                     intercalateSp (r.getD i []
                       :: data.map (fun p => p.2.getD i []))))).drop 1)
          = data.map Prod.fst
            ++ (List.range r.length).map (fun i =>
                 intercalateSp (r.getD i [] :: data.map (fun p => p.2.getD i [])))
          from rfl]
      rw [getD_append_left _ _ i [] (by simp [hi])]
      rw [getD_map_lt data Prod.fst i [] ([], []) hi]
      obtain ⟨hne_name, hws_name⟩ := hnames _ (getD_mem_of_lt data i ([], []) hi)
      rw [splitWs_single _ hne_name hws_name]
    rw [exceptMap_ok _ (fun i => (data.getD i ([], [])).1) _ h1]
    exact congrArg Except.ok (range_map_getD data ([], []) Prod.fst)
  have hrows_eq : ((List.range r.length).map (fun i =>
        intercalateSp (r.getD i [] :: data.map (fun p => p.2.getD i [])))).filterMap
          parsedLine?
      = (List.range r.length).map
          (fun i => r.getD i [] :: data.map (fun p => p.2.getD i [])) := by
    rw [List.filterMap_map]
    apply filterMap_all_some
    intro i hi
    rw [List.mem_range] at hi
    show parsedLine? (intercalateSp (r.getD i [] :: data.map (fun p => p.2.getD i [])))
        = some (r.getD i [] :: data.map (fun p => p.2.getD i []))
    apply parsedLine?_intercalate _ (by simp)
    intro t ht
    rcases List.mem_cons.mp ht with rfl | ht2
    · exact hrtok _ (getD_mem_of_lt r i [] hi)
    · rw [List.mem_map] at ht2
      obtain ⟨p, hp, rfl⟩ := ht2
      obtain ⟨hplen, hptk⟩ := hvals p hp
      exact hptk _ (getD_mem_of_lt p.2 i [] (by omega))
  have hgft : genfromtxt (('#' :: ' ' :: comment)
        :: (((("number of variables = ").toList) ++ natToStr data.length)
        :: (data.map Prod.fst
            ++ (List.range r.length).map (fun i =>
                 intercalateSp (r.getD i [] :: data.map (fun p => p.2.getD i []))))))
        ((("r").toList) :: data.map Prod.fst) (1 + data.length + 1) none
      = .ok { names := (("r").toList) :: data.map Prod.fst,
              rows := (List.range r.length).map
                (fun i => r.getD i [] :: data.map (fun p => p.2.getD i [])) } := by
    have hdrop : (('#' :: ' ' :: comment)
          :: (((("number of variables = ").toList) ++ natToStr data.length)
          :: (data.map Prod.fst
              ++ (List.range r.length).map (fun i =>
                   intercalateSp (r.getD i []
                     :: data.map (fun p => p.2.getD i [])))))).drop (1 + data.length + 1)
        = (List.range r.length).map (fun i =>
            intercalateSp (r.getD i [] :: data.map (fun p => p.2.getD i []))) := by
      rw [show 1 + data.length + 1 = data.length + 2 from by omega]
      show (data.map Prod.fst
          ++ (List.range r.length).map (fun i =>
               intercalateSp (r.getD i []
                 :: data.map (fun p => p.2.getD i [])))).drop data.length
        = _
      rw [show data.length = (data.map Prod.fst).length from by simp]
      exact List.drop_left _ _
    have hbody : gftBody (('#' :: ' ' :: comment)
          :: (((("number of variables = ").toList) ++ natToStr data.length)
          :: (data.map Prod.fst
              ++ (List.range r.length).map (fun i =>
                   intercalateSp (r.getD i []
                     :: data.map (fun p => p.2.getD i []))))))
          (1 + data.length + 1) none
        = (List.range r.length).map
            (fun i => r.getD i [] :: data.map (fun p => p.2.getD i [])) := by
      rw [gftBody, hdrop, hrows_eq]
    rw [genfromtxt, hbody]
    rw [if_pos]
    refine ⟨hnodup, ?_⟩
    rw [List.all_eq_true]
    intro row hrow
    rw [List.mem_map] at hrow
    obtain ⟨i, hi, rfl⟩ := hrow
    simp
  refine ⟨{ comment := '#' :: ' ' :: comment,
            var_names_data := (("r").toList) :: data.map Prod.fst,
            rows := (List.range r.length).map
              (fun i => r.getD i [] :: data.map (fun p => p.2.getD i [])),
            loaded := true }, ?_, rfl, ?_, ?_⟩
  · rw [write_flash_profile]
    simp only [Model.read_file, modelHasComment, List.headD_cons,
      List.drop_succ_cons, List.drop_zero, List.cons_append, hct, pyInt_natToStr,
      Int.toNat_natCast, hnt, hgft, bind, Except.bind, pure, Except.pure,
      eq_self_iff_true, if_true]
  · rw [List.map_map]
    have hcomp : ((fun row => row.getD 0 ([] : Str))
          ∘ (fun i => r.getD i [] :: data.map (fun p => p.2.getD i [])))
        = fun i => r.getD i [] := rfl
    rw [hcomp]
    have h2 := range_map_getD r ([] : Str) (fun x => x)
    simpa using h2
  · intro j hj
    rw [List.map_map]
    have hlenj : (data.getD j ([], [])).2.length = r.length :=
      (hvals _ (getD_mem_of_lt data j ([], []) hj)).1
    have hstep : ((fun row => row.getD (j + 1) ([] : Str))
          ∘ (fun i => r.getD i [] :: data.map (fun p => p.2.getD i [])))
        = fun i => (data.getD j ([], [])).2.getD i [] := by
      funext i
      show (data.map (fun p => p.2.getD i [])).getD j [] = _
      rw [getD_map_lt data _ j [] ([], []) hj]
    rw [hstep, ← hlenj]
    have h2 := range_map_getD (data.getD j ([], [])).2 ([] : Str) (fun x => x)
    simpa using h2

theorem C7_profile_roundtrip_witness :
    ∃ m : Model,
      Model.read_file
          (write_flash_profile [("1.0").toList, ("2.0").toList]
            [(("dens").toList, [("10").toList, ("20").toList])]
            (("test model").toList)) = .ok m
      ∧ m.var_names_data = (("r").toList) :: [(("dens").toList,
          [("10").toList, ("20").toList])].map Prod.fst
      ∧ m.rows.map (fun row => row.getD 0 []) = [("1.0").toList, ("2.0").toList]
      ∧ ∀ j, j < [(("dens").toList, [("10").toList, ("20").toList])].length →
          m.rows.map (fun row => row.getD (j + 1) [])
            = ([(("dens").toList, [("10").toList, ("20").toList])].getD j ([], [])).2 :=
  C7_profile_roundtrip [("1.0").toList, ("2.0").toList]
    [(("dens").toList, [("10").toList, ("20").toList])]
    (("test model").toList)
    (by decide) (by decide) (by decide) (by decide) (by decide) (by decide)
